import Mathlib

/-!
Verification development for the wordpress-export-to-markdown parser
(src/parser.js).  The source file contains two concatenated variants of the
parser: a historical, non-networked variant (events loaded from a local JSON
lookup) and a networked variant (events fetched per record over HTTP).  The
definitions below embed the networked variant, which is the one the claims
cite for collectPosts, getEventMetadata, mergeImagesIntoPosts,
collectScrapedImages and getPostDate; the historical variant of getAddress
(the only place where the two variants disagree on a claim) is embedded in
the Historical namespace.

Modelling conventions:
- xml2js wraps every field in a length-1 array; the JS code reads
  post.field[0].  A present field is modelled as its scalar value; a field
  whose absence matters to a claim (post_id, post_name, title, pubDate,
  creator, postmeta, category) is an Option, and the indexing access [0] on
  an absent field, which throws a TypeError in JS, is modelled by jsIndex0
  returning an error in Except.  Fields whose absence no claim concerns
  (post_type, status, encoded, link) are modelled as always present.
- Asynchronous code: each mapped async task is a value of Except RunError;
  Promise.all over the tasks is exceptMapList, which yields the first error
  in index order (Promise.all rejects with the first rejection; the claims
  below only depend on whether some rejection exists, never on which).
- The real-time behaviour of the delay(5000) calls is modelled separately
  by requestStartMs.
-/

/-- The ways a run of the networked collectPosts pipeline can fail:
a TypeError from indexing [0] into an absent field, a URIError from
decodeURIComponent, or the rejection propagated out of getEventMetadata
(network failure, timeout abort, or a JSON parse failure). -/
inductive RunError where
  | typeError
  | uriError
  | fetchRejection
  deriving DecidableEq, Repr

deriving instance DecidableEq for Except

/-- Models the JS access x.field[0]: if the field is absent, JS throws a
TypeError (cannot read properties of undefined). -/
def jsIndex0 (f : Option String) : Except RunError String :=
  match f with
  | some s => .ok s
  | none => .error .typeError

/-- Models Promise.all over a list of per-element tasks: succeeds with the
list of results iff every task succeeds, otherwise fails with the first
error in index order. -/
def exceptMapList (f : α → Except RunError β) : List α → Except RunError (List β)
  | [] => .ok []
  | a :: l => do
    let b ← f a
    let bs ← exceptMapList f l
    pure (b :: bs)

/-- Models adding one element to a JS Set that preserves insertion order:
the element is appended iff it is not already present. -/
def jsSetAdd (acc : List String) (t : String) : List String :=
  if acc.contains t then acc else acc ++ [t]

/-- Models spreading a JS array through a Set ([...new Set(l)]): duplicates
removed, first occurrence kept, first-seen order preserved. -/
def dedupFirstSeen (l : List String) : List String :=
  l.foldl jsSetAdd []

/-- Models JS Array.prototype.join(sep). -/
def jsJoin (sep : String) : List String → String
  | [] => ""
  | [s] => s
  | s :: l => s ++ sep ++ jsJoin sep l

/-- Splits a character list on a separator character; mirrors the behaviour
of JS String.split with a one-character separator (an empty input gives one
empty field, a trailing separator a trailing empty field).  Defined here
because kernel reduction is wanted in concrete proofs. -/
def splitOnChar (sep : Char) : List Char → List (List Char)
  | [] => [[]]
  | c :: rest =>
    let r := splitOnChar sep rest
    if c == sep then [] :: r
    else
      match r with
      | h :: t => (c :: h) :: t
      | [] => [[c]]

/-- Numeric value of an all-digit character list. -/
def digitsToNat (cs : List Char) : Nat :=
  cs.foldl (fun acc c => acc * 10 + (c.toNat - '0'.toNat)) 0

/-- Whether s ends with the given suffix. -/
def listEndsWith (s suffix : List Char) : Bool :=
  s.reverse.take suffix.length == suffix.reverse

/-- The whitespace set of JS String.prototype.trim, restricted to the
one-byte characters (tab, newline, vertical tab, form feed, carriage
return, space, no-break space). -/
def jsWhitespace (c : Char) : Bool :=
  c == ' ' || c == '\t' || c == '\n' || c == '\r'
    || c == '\x0b' || c == '\x0c' || c == '\u00A0'

/-- Models JS String.prototype.trim. -/
def jsTrim (s : String) : String :=
  String.mk (((s.data.dropWhile jsWhitespace).reverse.dropWhile jsWhitespace).reverse)

/-- Hex digit value, for percent-escape decoding. -/
def hexVal (c : Char) : Option Nat :=
  if '0' ≤ c ∧ c ≤ '9' then some (c.toNat - '0'.toNat)
  else if 'a' ≤ c ∧ c ≤ 'f' then some (c.toNat - 'a'.toNat + 10)
  else if 'A' ≤ c ∧ c ≤ 'F' then some (c.toNat - 'A'.toNat + 10)
  else none

/-- Decodes a byte list as UTF-8 (overlong encodings are not rejected; no
claim exercises multi-byte input). -/
def utf8Decode : List Nat → Option (List Char)
  | [] => some []
  | b :: rest =>
    if b < 0x80 then
      (utf8Decode rest).map (Char.ofNat b :: ·)
    else if 0xC0 ≤ b ∧ b < 0xE0 then
      match rest with
      | c :: rest' =>
        if 0x80 ≤ c ∧ c < 0xC0 then
          (utf8Decode rest').map (Char.ofNat ((b - 0xC0) * 64 + (c - 0x80)) :: ·)
        else none
      | _ => none
    else if 0xE0 ≤ b ∧ b < 0xF0 then
      match rest with
      | c :: d :: rest' =>
        if (0x80 ≤ c ∧ c < 0xC0) ∧ (0x80 ≤ d ∧ d < 0xC0) then
          (utf8Decode rest').map
            (Char.ofNat ((b - 0xE0) * 4096 + (c - 0x80) * 64 + (d - 0x80)) :: ·)
        else none
      | _ => none
    else if 0xF0 ≤ b ∧ b < 0xF8 then
      match rest with
      | c :: d :: e :: rest' =>
        if (0x80 ≤ c ∧ c < 0xC0) ∧ (0x80 ≤ d ∧ d < 0xC0) ∧ (0x80 ≤ e ∧ e < 0xC0) then
          (utf8Decode rest').map
            (Char.ofNat ((b - 0xF0) * 262144 + (c - 0x80) * 4096 + (d - 0x80) * 64 + (e - 0x80)) :: ·)
        else none
      | _ => none
    else none

/-- Character-level worker for decodeURIComponent: literal characters pass
through; consecutive %XX escapes accumulate (reversed) in pend and are
decoded as one UTF-8 byte run when the run ends. -/
def decodeLoop : List Nat → List Char → Option (List Char)
  | pend, [] => utf8Decode pend.reverse
  | pend, '%' :: a :: b :: rest => do
    let ha ← hexVal a
    let hb ← hexVal b
    decodeLoop ((ha * 16 + hb) :: pend) rest
  | _, '%' :: _ => none
  | pend, c :: rest => do
    let cs ← utf8Decode pend.reverse
    let tail ← decodeLoop [] rest
    pure (cs ++ c :: tail)

/-- Models JS decodeURIComponent: decodes %XX escapes as UTF-8 bytes; a
malformed escape or invalid byte sequence throws a URIError. -/
def decodeURIComponent (s : String) : Except RunError String :=
  match decodeLoop [] s.data with
  | some cs => .ok (String.mk cs)
  | none => .error .uriError

/-! ## Data model -/

/-- One postmeta entry of an export item (meta_key[0] / meta_value[0]). -/
structure PostmetaEntry where
  meta_key : String
  meta_value : String
  deriving DecidableEq, Repr

/-- One category element of an export item; domain and nicename are the
attributes read through category.$ in the JS code. -/
structure CategoryEntry where
  domain : String
  nicename : String
  deriving DecidableEq, Repr

/-- One item of the parsed export tree (data.rss.channel[0].item[i]). -/
structure Item where
  post_type : String
  status : String
  post_id : Option String
  post_name : Option String
  title : Option String
  pubDate : Option String
  creator : Option String
  postmeta : Option (List PostmetaEntry)
  category : Option (List CategoryEntry)
  encoded : String
  link : String
  post_parent : Option String
  attachment_url : Option String
  deriving DecidableEq, Repr

/-- The meta block built for each post in collectPosts. -/
structure Meta where
  id : String
  slug : String
  coverImageId : Option String
  type : String
  imageUrls : List String
  deriving DecidableEq, Repr

/-- The frontmatter block built for each post in collectPosts.  The five
enrichment fields and coverImage are absent (none) until the enricher or
the correlator adds them, matching the dynamic JS object. -/
structure Frontmatter where
  title : String
  date : Option String
  categories : List String
  tags : List String
  wp_id : String
  wp_type : String
  wp_slug : String
  creator : String
  start_datetime : Option String
  end_datetime : Option String
  venue : Option String
  address : Option String
  ical_source_url : Option String
  coverImage : Option String
  deriving DecidableEq, Repr

/-- A normalized record: the object returned per post by collectPosts. -/
structure Post where
  meta : Meta
  frontmatter : Frontmatter
  content : String
  deriving DecidableEq, Repr

/-- The id of a collected image: attachments carry their declared string id
(post_id[0]); scraped images carry the numeric sentinel -1.  JS strict
equality between the number -1 and any string or undefined is false, which
is what the separate constructor captures. -/
inductive ImageId where
  | declared (id : String)
  | sentinel
  deriving DecidableEq, Repr

/-- An Asset descriptor as produced by the two collectors. -/
structure Image where
  id : ImageId
  postId : String
  url : String
  deriving DecidableEq, Repr

/-- The event_data object of an enrichment response body. -/
structure EventData where
  start_datetime : String
  end_datetime : String
  venue : String
  province : String
  city : String
  address : String
  postal_code : String
  ical_source_url : String
  deriving DecidableEq, Repr

/-- An enrichment response body; event_data may be missing, which the
caller checks (!eventMetadata.event_data). -/
structure EventMetadata where
  event_data : Option EventData
  deriving DecidableEq, Repr

/-- Outcome of the fetch inside getEventMetadata for a given id:
a 2xx response with a JSON body, a non-OK status, or a transport-level
failure (network error, or the 10s AbortController timeout firing). -/
inductive FetchResult where
  | ok (body : EventMetadata)
  | httpError
  | transportError
  deriving DecidableEq, Repr

/-- The run-wide settings module consumed by the extractor
(custom_date_formatting, include_time_with_date, filter_categories). -/
structure Settings where
  custom_date_formatting : Option String
  include_time_with_date : Bool
  filter_categories : List String
  deriving DecidableEq, Repr

/-! ## Dates (luxon DateTime.fromRFC2822 with zone utc, toISODate, toISO) -/

/-- Day names accepted by the optional leading day-of-week of an RFC 2822
date (luxon's rfc2822 pattern, case-sensitive). -/
def dayNames : List String := ["Mon", "Tue", "Wed", "Thu", "Fri", "Sat", "Sun"]

/-- Month names of an RFC 2822 date (case-sensitive). -/
def monthNames : List String :=
  ["Jan", "Feb", "Mar", "Apr", "May", "Jun", "Jul", "Aug", "Sep", "Oct", "Nov", "Dec"]

/-- 1-based month number from its RFC 2822 name. -/
def monthNumber (cs : List Char) : Option Nat :=
  (monthNames.findIdx? (fun n => n.data == cs)).map (· + 1)

/-- Luxon's untruncateYear for obsolete two-digit RFC 2822 years. -/
def untruncateYear (y : Nat) : Nat :=
  if y > 99 then y else if y > 60 then 1900 + y else 2000 + y

/-- Gregorian leap year. -/
def isLeapYear (y : Nat) : Bool :=
  (y % 4 == 0 && y % 100 != 0) || y % 400 == 0

/-- Days in a Gregorian month (month 1-12). -/
def daysInMonth (y m : Nat) : Nat :=
  if m == 2 then (if isLeapYear y then 29 else 28)
  else if m == 4 || m == 6 || m == 9 || m == 11 then 30
  else 31

/-- Days since 1970-01-01 of a Gregorian date (year ≥ 1, so every Nat
division below is an exact floor). -/
def daysFromCivil (y m d : Nat) : Int :=
  let y' := if m ≤ 2 then y - 1 else y
  let era := y' / 400
  let yoe := y' - era * 400
  let mp := if m > 2 then m - 3 else m + 9
  let doy := (153 * mp + 2) / 5 + d - 1
  let doe := yoe * 365 + yoe / 4 - yoe / 100 + doy
  (Int.ofNat (era * 146097 + doe)) - 719468

/-- Gregorian (year, month, day) from days since 1970-01-01; valid for
every date of year ≥ 61, the range producible by the RFC 2822 parser. -/
def civilFromDays (z : Int) : Nat × Nat × Nat :=
  let z' := (z + 719468).toNat
  let era := z' / 146097
  let doe := z' - era * 146097
  let yoe := (doe - doe / 1460 + doe / 36524 - doe / 146096) / 365
  let y := yoe + era * 400
  let doy := doe - (365 * yoe + yoe / 4 - yoe / 100)
  let mp := (5 * doy + 2) / 153
  let d := doy - (153 * mp + 2) / 5 + 1
  let m := if mp < 10 then mp + 3 else mp - 9
  (if m ≤ 2 then y + 1 else y, m, d)

/-- Zero-pad to two digits. -/
def pad2 (n : Nat) : String :=
  if n < 10 then "0" ++ toString n else toString n

/-- Zero-pad to four digits (luxon renders years of this model's range with
four digits). -/
def pad4 (n : Nat) : String :=
  if n < 10 then "000" ++ toString n
  else if n < 100 then "00" ++ toString n
  else if n < 1000 then "0" ++ toString n
  else toString n

/-- luxon toISODate on a UTC DateTime holding the given epoch second. -/
def luxonToISODate (epoch : Int) : String :=
  let (y, m, d) := civilFromDays (Int.fdiv epoch 86400)
  pad4 y ++ "-" ++ pad2 m ++ "-" ++ pad2 d

/-- luxon toISO on a UTC DateTime holding the given epoch second (the
parser produces whole seconds, so the millisecond field is always 000). -/
def luxonToISO (epoch : Int) : String :=
  let days := Int.fdiv epoch 86400
  let secs := (epoch - days * 86400).toNat
  luxonToISODate epoch ++ "T" ++ pad2 (secs / 3600) ++ ":" ++ pad2 (secs % 3600 / 60)
    ++ ":" ++ pad2 (secs % 60) ++ ".000Z"

/-- Character-level worker for the minimal luxon toFormat model: the tokens
yyyy, MM and dd render the date parts, everything else is verbatim.  No
claim exercises the custom-format branch. -/
def formatTokens (y m d : Nat) : List Char → String
  | 'y' :: 'y' :: 'y' :: 'y' :: rest => pad4 y ++ formatTokens y m d rest
  | 'M' :: 'M' :: rest => pad2 m ++ formatTokens y m d rest
  | 'd' :: 'd' :: rest => pad2 d ++ formatTokens y m d rest
  | c :: rest => String.mk [c] ++ formatTokens y m d rest
  | [] => ""

/-- Minimal model of luxon toFormat on a UTC DateTime holding the given
epoch second. -/
def luxonToFormat (fmt : String) (epoch : Int) : String :=
  let (y, m, d) := civilFromDays (Int.fdiv epoch 86400)
  formatTokens y m d fmt.data

/-- Parses the time-of-day component hh:mm or hh:mm:ss (two digits each). -/
def parseTimeOfDay (cs : List Char) : Option (Nat × Nat × Nat) :=
  let ok2 := fun (t : List Char) => t.length == 2 && t.all Char.isDigit
  match splitOnChar ':' cs with
  | [h, m] =>
    if ok2 h && ok2 m then some (digitsToNat h, digitsToNat m, 0) else none
  | [h, m, sec] =>
    if ok2 h && ok2 m && ok2 sec then some (digitsToNat h, digitsToNat m, digitsToNat sec)
    else none
  | _ => none

/-- Parses the zone component: an obsolete named zone, Z, or a signed
four-digit offset, giving the offset in minutes (luxon accepts any two
minute digits without a range check). -/
def parseOffsetMinutes (cs : List Char) : Option Int :=
  let named : List (String × Int) :=
    [("UT", 0), ("GMT", 0), ("Z", 0), ("z", 0),
     ("EST", -300), ("EDT", -240), ("CST", -360), ("CDT", -300),
     ("MST", -420), ("MDT", -360), ("PST", -480), ("PDT", -420)]
  match named.find? (fun p => p.1.data == cs) with
  | some p => some p.2
  | none =>
    match cs with
    | [sign, h1, h2, m1, m2] =>
      if (sign == '+' || sign == '-') && [h1, h2, m1, m2].all Char.isDigit then
        let v : Int := digitsToNat [h1, h2] * 60 + digitsToNat [m1, m2]
        some (if sign == '+' then v else -v)
      else none
    | _ => none

/-- Models luxon DateTime.fromRFC2822(s, zone utc) as the epoch second of
the parsed instant: optional day-of-week and comma, 1-2 digit day, month
name, 2-4 digit year, hh:mm(:ss), and a zone; the offset is subtracted to
reach UTC, and calendar/time validity is checked as luxon does.  none
models an Invalid DateTime. -/
def parseRFC2822 (s : String) : Option Int :=
  let toks₀ := splitOnChar ' ' s.data
  let toks :=
    match toks₀ with
    | t :: rest =>
      if (dayNames.map (fun (n : String) => n.data ++ [','])).contains t then rest
      else toks₀
    | [] => toks₀
  match toks with
  | [d, mon, y, time, off] =>
    if (1 ≤ d.length && d.length ≤ 2 && d.all Char.isDigit)
        && (2 ≤ y.length && y.length ≤ 4 && y.all Char.isDigit) then do
      let day := digitsToNat d
      let m ← monthNumber mon
      let year := untruncateYear (digitsToNat y)
      let (hh, mm, ss) ← parseTimeOfDay time
      let offMin ← parseOffsetMinutes off
      if 1 ≤ day && day ≤ daysInMonth year m && hh ≤ 23 && mm ≤ 59 && ss ≤ 59 then
        some (daysFromCivil year m day * 86400
          + (Int.ofNat (hh * 3600 + mm * 60 + ss)) - offMin * 60)
      else none
    else none
  | _ => none

/-- JS truthiness of settings.custom_date_formatting: present and not the
empty string. -/
def jsTruthyStrOpt : Option String → Bool
  | some s => s != ""
  | none => false

/-- The rendering part of getPostDate: luxon parse in UTC, then one of the
three mutually exclusive branches (custom format, full ISO with time,
date-only ISO).  An invalid parse renders as null (none) in the ISO
branches and as the string Invalid DateTime in the custom-format branch,
as luxon does. -/
def formatPostDate (st : Settings) (pubDate : String) : Option String :=
  if jsTruthyStrOpt st.custom_date_formatting then
    some (match parseRFC2822 pubDate with
      | some e => luxonToFormat (st.custom_date_formatting.getD "") e
      | none => "Invalid DateTime")
  else if st.include_time_with_date then
    (parseRFC2822 pubDate).map luxonToISO
  else
    (parseRFC2822 pubDate).map luxonToISODate

/-! ## Record Classifier -/

/-- The fixed exclusion list in getPostTypes. -/
def excludedTypes : List String :=
  ["attachment", "revision", "nav_menu_item", "custom_css", "customize_changeset"]

/-- getPostTypes: with includeOtherTypes, every declared item type minus
the exclusions, deduplicated through a JS Set; otherwise just post. -/
def getPostTypes (items : List Item) (includeOtherTypes : Bool) : List String :=
  if includeOtherTypes then
    dedupFirstSeen ((items.map (·.post_type)).filter (fun t => !excludedTypes.contains t))
  else
    ["post"]

/-- getItemsOfType: the items whose post_type[0] equals the given type. -/
def getItemsOfType (items : List Item) (type : String) : List Item :=
  items.filter (fun item => item.post_type == type)

/-! ## Field accessors (Record Extractor) -/

/-- getPostId: post.post_id[0]; throws if the field is absent. -/
def getPostId (post : Item) : Except RunError String :=
  jsIndex0 post.post_id

/-- getPostSlug: decodeURIComponent(post.post_name[0]). -/
def getPostSlug (post : Item) : Except RunError String := do
  decodeURIComponent (← jsIndex0 post.post_name)

/-- getPostCoverImageId: undefined when the postmeta block is absent or no
entry is keyed _thumbnail_id, otherwise that entry's meta_value[0]. -/
def getPostCoverImageId (post : Item) : Option String :=
  match post.postmeta with
  | none => none
  | some postmeta =>
    match postmeta.find? (fun pm => pm.meta_key == "_thumbnail_id") with
    | some pm => some pm.meta_value
    | none => none

/-- getPostTitle: post.title[0]. -/
def getPostTitle (post : Item) : Except RunError String :=
  jsIndex0 post.title

/-- getPostDate: parse post.pubDate[0] with luxon in UTC and render per the
configured policy (the rendering itself is formatPostDate). -/
def getPostDate (st : Settings) (post : Item) : Except RunError (Option String) := do
  pure (formatPostDate st (← jsIndex0 post.pubDate))

/-- processCategoryTags: the decoded nicenames of the category entries with
the given domain discriminator; an absent category block gives []. -/
def processCategoryTags (post : Item) (domain : String) : Except RunError (List String) :=
  match post.category with
  | none => .ok []
  | some cats =>
    exceptMapList (fun c => decodeURIComponent c.nicename)
      (cats.filter (fun c => c.domain == domain))

/-- getCategories: category-domain entries minus the configured exclusion
set. -/
def getCategories (st : Settings) (post : Item) : Except RunError (List String) := do
  let categories ← processCategoryTags post "category"
  pure (categories.filter (fun c => !st.filter_categories.contains c))

/-- getTags: post_tag-domain entries. -/
def getTags (post : Item) : Except RunError (List String) :=
  processCategoryTags post "post_tag"

/-- getPostCreator: post.creator[0]. -/
def getPostCreator (post : Item) : Except RunError String :=
  jsIndex0 post.creator

/-! ## Event Enricher -/

/-- getAddress of the networked variant (parser.js lines 561-567): a
template literal joining the four components with a comma and space,
unconditionally, blank or not.  The source receives the whole eventMetadata
object and reads eventMetadata.event_data; it is only called under the
guard that event_data is present, so the model takes the EventData. -/
def getAddress (ed : EventData) : String :=
  ed.address ++ ", " ++ ed.city ++ ", " ++ ed.province ++ ", " ++ ed.postal_code

namespace Historical

/-- getAddress of the historical variant (parser.js lines 266-276): keeps
the components that are truthy and not whitespace-only
(component && component.trim() !== ''), then joins them with ", ". -/
def getAddress (ed : EventData) : String :=
  let addressComponents := [ed.address, ed.city, ed.province, ed.postal_code]
  let validComponents := addressComponents.filter
    (fun component => component != "" && jsTrim component != "")
  jsJoin ", " validComponents

end Historical

/-- getEventMetadata (parser.js lines 535-559): one GET to the events
endpoint for the given id, with a 10 s AbortController timeout.  A 2xx
response resolves with the parsed body; a non-OK status logs and resolves
undefined (the .then chain returns nothing); a network failure, an abort
from the timeout, or a body-parse failure reaches the .catch, which logs
and then REJECTS the promise. -/
def getEventMetadata (fetchEnv : String → FetchResult) (id : String) :
    Except RunError (Option EventMetadata) :=
  match fetchEnv id with
  | .ok body => .ok (some body)
  | .httpError => .ok none
  | .transportError => .error .fetchRejection

/-- The time, in ms after collectPosts starts a post type's batch, at which
the task for the post at the given index issues its enrichment request (or,
for other types, starts its field work).  Derivation from the source
(parser.js lines 344-350): postsForType.map(async (post, index) => ...)
starts every task in the same event-loop turn; each task with index !== 0
first does await delay(5000), and the index-0 task proceeds immediately.
All the 5000 ms timers therefore start together at t = 0, so every
non-first task resumes at t = 5000, whatever its index and whatever the
post type: the condition around the delay checks only the index, never
postType. -/
def requestStartMs (postType : String) (index : Nat) : Nat :=
  if index == 0 then 0 else 5000

/-- The schedule the claim asserts: starts staggered 5000 ms apart for the
enrichable subtype, and no delay at all for every other subtype. -/
def claimedRequestStartMs (postType : String) (index : Nat) : Nat :=
  if postType == "ai1ec_event" then 5000 * index else 0

/-! ## collectPosts (networked variant) -/

/-- The body of the async arrow mapped over postsForType in collectPosts
(networked variant, parser.js lines 344-403): build meta and frontmatter in
source field order, then for the enrichable subtype await getEventMetadata
and, when the body and its event_data are present, enrich the frontmatter.
An uncaught throw anywhere in the body (absent field, URIError, or the
rejection of getEventMetadata, which the source does not try/catch) rejects
this task's promise.  The content transformation is the external
collaborator, passed in as transform. -/
def buildPost (st : Settings) (fetchEnv : String → FetchResult)
    (transform : Item → String) (postType : String) (post : Item) :
    Except RunError Post := do
  let id ← getPostId post
  let slug ← getPostSlug post
  let meta : Meta :=
    { id := id, slug := slug, coverImageId := getPostCoverImageId post,
      type := postType, imageUrls := [] }
  let title ← getPostTitle post
  let date ← getPostDate st post
  let categories ← getCategories st post
  let tags ← getTags post
  let wp_id ← getPostId post
  let wp_slug ← getPostSlug post
  let creator ← getPostCreator post
  let frontmatter : Frontmatter :=
    { title := title, date := date, categories := categories, tags := tags,
      wp_id := wp_id, wp_type := postType, wp_slug := wp_slug, creator := creator,
      start_datetime := none, end_datetime := none, venue := none,
      address := none, ical_source_url := none, coverImage := none }
  if postType != "ai1ec_event" then
    pure { meta := meta, frontmatter := frontmatter, content := transform post }
  else do
    let eventMetadata ← getEventMetadata fetchEnv id
    match eventMetadata with
    | none => pure { meta := meta, frontmatter := frontmatter, content := transform post }
    | some em =>
      match em.event_data with
      | none => pure { meta := meta, frontmatter := frontmatter, content := transform post }
      | some ed =>
        let frontmatter :=
          { frontmatter with
            start_datetime := some ed.start_datetime,
            end_datetime := some ed.end_datetime,
            venue := some ed.venue,
            address := some (getAddress ed),
            ical_source_url := some ed.ical_source_url }
        pure { meta := meta, frontmatter := frontmatter, content := transform post }

/-- collectPosts (networked variant): per post type, select the items of
the type whose status is neither trash nor draft, run the per-post tasks,
and await Promise.all; any task rejection rejects the whole call.  The
final filter(Boolean) of the source removes no element, because every
fulfilled task resolves with an object.  The returned list concatenates the
per-type lists in order. -/
def collectPosts (items : List Item) (postTypes : List String) (st : Settings)
    (fetchEnv : String → FetchResult) (transform : Item → String) :
    Except RunError (List Post) := do
  let perType ← exceptMapList (fun postType => do
      let postsForType := (getItemsOfType items postType).filter
        (fun post => post.status != "trash" && post.status != "draft")
      exceptMapList (buildPost st fetchEnv transform postType) postsForType)
    postTypes
  pure perType.flatten

/-! ## Asset Collector: declared attachments -/

/-- The extension test of collectAttachedImages, the regex
backslash-dot (gif|jpe?g|png) dollar with the i flag: the URL ends with a
dot and one of gif, jpg, jpeg, png, case-insensitively. -/
def hasImageExt (url : String) : Bool :=
  ["gif", "jpg", "jpeg", "png"].any
    (fun e => listEndsWith (url.data.map Char.toLower) ('.' :: e.data))

/-- collectAttachedImages: attachment-typed items whose declared URL passes
the extension test, emitted with their own id, their parent id and the URL
verbatim.  The JS filter reads every attachment_url[0] before the map reads
the ids, which the two passes mirror. -/
def collectAttachedImages (items : List Item) : Except RunError (List Image) := do
  let attachments := getItemsOfType items "attachment"
  let withUrl ← exceptMapList
    (fun att => do pure (att, ← jsIndex0 att.attachment_url)) attachments
  let kept := withUrl.filter (fun p => hasImageExt p.2)
  exceptMapList (fun p => do
    let id ← jsIndex0 p.1.post_id
    let postId ← jsIndex0 p.1.post_parent
    pure { id := ImageId.declared id, postId := postId, url := p.2 }) kept

/-! ## Asset Collector: scraped images

The scrape pattern is the global, case-insensitive regex
img-tag src capture: literal <img, any run of non-gt characters, literal
src=", a lazy one-or-more capture ending in a dot and one of the
extensions gif, jpe?g, png, a closing quote, another run of non-gt
characters, and a closing gt.  The functions below implement exactly the
backtracking search of the JS engine for this one pattern: alternation
tried left to right (with the greedy e? trying jpeg before jpg), the
leading non-gt run greedy with backtracking, the capture lazy, and matchAll
resuming one position forward on failure and at the match end on success. -/

/-- Case-insensitive character comparison (the i flag). -/
def charCIEq (a b : Char) : Bool :=
  a.toLower == b.toLower

/-- Strips a literal pattern case-insensitively, returning the consumed
input characters (original case) and the remainder. -/
def stripCI : List Char → List Char → Option (List Char × List Char)
  | [], s => some ([], s)
  | _ :: _, [] => none
  | p :: ps, c :: cs =>
    if charCIEq c p then
      match stripCI ps cs with
      | some (con, r) => some (c :: con, r)
      | none => none
    else none

/-- The extension alternation of the pattern, in engine order: gif, then
jpe?g with the greedy optional e (jpeg before jpg), then png. -/
def imgExts : List (List Char) :=
  [['g', 'i', 'f'], ['j', 'p', 'e', 'g'], ['j', 'p', 'g'], ['p', 'n', 'g']]

/-- The characters the dot of the pattern cannot match: JS line
terminators. -/
def isLineTerm (c : Char) : Bool :=
  c == '\n' || c == '\r' || c == '\u2028' || c == '\u2029'

/-- The trailing non-gt-run-and-gt of the pattern: consume the maximal run
of non-gt characters, then require a gt, returning what follows it.  The
run cannot contain a gt, so the greedy match has a unique split. -/
def tryTail (v : List Char) : Option (List Char) :=
  match v.dropWhile (fun c => c != '>') with
  | c :: rest => if c == '>' then some rest else none
  | [] => none

/-- Tries each extension alternative in order at u: the extension, the
closing quote, then the pattern tail; a tail failure backtracks into the
next alternative.  Returns the extension as it appears in the input and
the remainder after the matched gt. -/
def tryExtQuoteTail : List (List Char) → List Char → Option (List Char × List Char)
  | [], _ => none
  | e :: es, u =>
    match stripCI e u with
    | some (con, u') =>
      match u' with
      | q :: v =>
        if q == '"' then
          match tryTail v with
          | some rest => some (con, rest)
          | none => tryExtQuoteTail es u
        else tryExtQuoteTail es u
      | [] => tryExtQuoteTail es u
    | none => tryExtQuoteTail es u

/-- The terminator of the lazy capture: a literal dot, an extension
alternative, the quote, and the tail. -/
def tryDotExt : List Char → Option (List Char × List Char)
  | c :: u =>
    if c == '.' then (tryExtQuoteTail imgExts u).map (fun r => (c :: r.1, r.2))
    else none
  | [] => none

/-- The lazy capture loop: grow the dot-any body one character at a time
(shortest first, as the lazy quantifier does), trying the capture
terminator after each character; a line terminator stops the search because
the dot-any can never cross it.  Returns the full capture (body, dot,
extension) and the remainder after the match. -/
def captureLoop : Nat → List Char → List Char → Option (List Char × List Char)
  | 0, _, _ => none
  | fuel + 1, bodyRev, t =>
    match t with
    | [] => none
    | c :: t' =>
      if isLineTerm c then none
      else
        match tryDotExt t' with
        | some (capTail, rest) => some ((c :: bodyRev).reverse ++ capTail, rest)
        | none => captureLoop fuel (c :: bodyRev) t'

/-- Tries the part of the pattern from src=" onward at the given suffix. -/
def trySrcAt (suffix : List Char) : Option (List Char × List Char) :=
  match stripCI ['s', 'r', 'c', '=', '"'] suffix with
  | some (_, t) => captureLoop t.length [] t
  | none => none

/-- Backtracking for the leading non-gt run after the img literal: the
greedy run tries the longest split first, shrinking on failure; k is the
split length currently tried. -/
def srcBacktrack (rest : List Char) : Nat → Option (List Char × List Char)
  | 0 => trySrcAt rest
  | k + 1 =>
    match trySrcAt (rest.drop (k + 1)) with
    | some r => some r
    | none => srcBacktrack rest k

/-- Matches the whole pattern anchored at the start of s, returning the
capture and the remainder after the match. -/
def matchImgAt (s : List Char) : Option (List Char × List Char) :=
  match stripCI ['<', 'i', 'm', 'g'] s with
  | none => none
  | some (_, rest) => srcBacktrack rest ((rest.takeWhile (fun c => c != '>')).length)

/-- The matchAll scan: try the pattern at each position left to right,
resuming after the end of each match; fuel bounds the recursion by the
string length (every step consumes at least one character). -/
def matchAllLoop : Nat → List Char → List (List Char)
  | 0, _ => []
  | fuel + 1, s =>
    match s with
    | [] => []
    | _ :: s' =>
      match matchImgAt s with
      | some (cap, rest) => cap :: matchAllLoop fuel rest
      | none => matchAllLoop fuel s'

/-- All captures of the scrape pattern over a body markup string, in match
order. -/
def matchAllImg (s : String) : List String :=
  (matchAllLoop s.data.length s.data).map String.mk

/-! ## URL resolution (new URL(ref, base).href)

A model of the WHATWG resolution for the reference shapes the scrape can
produce: a ref with its own scheme is returned as given, a
protocol-relative ref adopts the base scheme, an absolute-path ref replaces
the base path, and a relative-path ref is resolved against the base path
with single-dot and double-dot segment processing.  Query and fragment
splitting, percent-encoding normalization and special host syntax are
outside the model; no claim exercises them. -/

/-- Splits a leading URL scheme (letter, then letters, digits, plus, minus,
dot, then a colon) from the rest. -/
def splitScheme (cs : List Char) : Option (List Char × List Char) :=
  match cs with
  | c :: rest =>
    if c.isAlpha then
      let body := rest.takeWhile (fun d => d.isAlphanum || d == '+' || d == '-' || d == '.')
      match rest.drop body.length with
      | ':' :: tail => some (c :: body, tail)
      | _ => none
    else none
  | [] => none

/-- WHATWG path-segment processing: double-dot pops, single-dot is
skipped, and either as the final segment leaves a trailing empty segment
(a trailing slash). -/
def pathSegResolve : List String → List String → List String
  | acc, [] => acc
  | acc, ["."] => acc ++ [""]
  | acc, "." :: rest => pathSegResolve acc rest
  | acc, [".."] => acc.dropLast ++ [""]
  | acc, ".." :: rest => pathSegResolve acc.dropLast rest
  | acc, s :: rest => pathSegResolve (acc ++ [s]) rest

/-- Models new URL(ref, base).href for the cases above. -/
def urlResolve (ref base : String) : String :=
  match splitScheme ref.data with
  | some _ => ref
  | none =>
    match splitScheme base.data with
    | none => ref
    | some (bscheme, brest) =>
      match brest with
      | '/' :: '/' :: hostPath =>
        if ref.data.take 2 == ['/', '/'] then
          String.mk (bscheme ++ [':'] ++ ref.data)
        else
          let host := hostPath.takeWhile (fun c => c != '/')
          let path := hostPath.drop host.length
          let newSegs :=
            if ref.data.take 1 == ['/'] then
              pathSegResolve [] (((splitOnChar '/' ref.data).drop 1).map String.mk)
            else
              let baseSegs := ((splitOnChar '/' path).drop 1).map String.mk
              pathSegResolve baseSegs.dropLast ((splitOnChar '/' ref.data).map String.mk)
          String.mk (bscheme ++ [':', '/', '/'] ++ host) ++ "/" ++ jsJoin "/" newSegs
      | _ => ref

/-- The per-post body of collectScrapedImages: read post_id[0], run the
global pattern over the raw body markup, and emit one Asset per match with
the sentinel id -1, the owning post id, and the capture resolved against
the post's canonical link. -/
def scrapePost (post : Item) : Except RunError (List Image) := do
  let postId ← getPostId post
  pure ((matchAllImg post.encoded).map (fun cap =>
    { id := ImageId.sentinel, postId := postId, url := urlResolve cap post.link }))

/-- collectScrapedImages for one post type. -/
def scrapeType (items : List Item) (postType : String) : Except RunError (List Image) := do
  let perPost ← exceptMapList scrapePost (getItemsOfType items postType)
  pure perPost.flatten

/-- collectScrapedImages: every record of every classified type is
scanned, in order. -/
def collectScrapedImages (items : List Item) (postTypes : List String) :
    Except RunError (List Image) := do
  let perType ← exceptMapList (scrapeType items) postTypes
  pure perType.flatten

/-! ## Correlator -/

/-- Modelled from the spec: shared.getFilenameFromUrl lives in src/shared.js,
which is not part of the provided source; the spec states Rule B sets
coverImage to the filename portion of the asset URL, the path segment after
the last slash. -/
def getFilenameFromUrl (url : String) : String :=
  String.mk ((splitOnChar '/' url.data).getLastD url.data)

/-- JS strict equality image.id === post.meta.coverImageId: a declared
string id equals a present string cover id with the same text; the numeric
sentinel -1 never equals a string, and nothing equals undefined. -/
def coverIdMatch : ImageId → Option String → Bool
  | .declared s, some c => s == c
  | _, _ => false

/-- Rule A of mergeImagesIntoPosts: image.postId === post.meta.id. -/
def ruleA (image : Image) (post : Post) : Bool :=
  image.postId == post.meta.id

/-- Rule B of mergeImagesIntoPosts: image.id === post.meta.coverImageId. -/
def ruleB (image : Image) (post : Post) : Bool :=
  coverIdMatch image.id post.meta.coverImageId

/-- The body of the inner posts.forEach in mergeImagesIntoPosts: sets
coverImage when Rule B fires, then appends the URL when either rule fired
and the URL is not already present. -/
def mergeImageIntoPost (image : Image) (post : Post) : Post :=
  let attachA := ruleA image post
  let attachB := ruleB image post
  let post :=
    if attachB then
      { post with frontmatter := { post.frontmatter with coverImage := some (getFilenameFromUrl image.url) } }
    else post
  if (attachA || attachB) && !post.meta.imageUrls.contains image.url then
    { post with meta := { post.meta with imageUrls := post.meta.imageUrls ++ [image.url] } }
  else post

/-- mergeImagesIntoPosts: for each image, for each post, apply the two
rules and attach, mutating the posts in place (modelled by threading the
post list through the fold). -/
def mergeImagesIntoPosts (images : List Image) (posts : List Post) : List Post :=
  images.foldl (fun ps image => ps.map (mergeImageIntoPost image)) posts



/-! ## Concrete inputs used by the claim theorems, counterexamples and
witnesses -/

/-- Settings with no custom date format, no time-with-date, and no category
exclusions. -/
def defaultSettings : Settings :=
  { custom_date_formatting := none, include_time_with_date := false,
    filter_categories := [] }

/-- A stand-in for the external content-transformation collaborator. -/
def exampleTransform : Item → String := fun _ => ""

/-- An item with every optional field absent, to be overridden per
example. -/
def baseItem : Item :=
  { post_type := "post", status := "publish", post_id := none, post_name := none,
    title := none, pubDate := none, creator := none, postmeta := none,
    category := none, encoded := "", link := "", post_parent := none,
    attachment_url := none }

def c1EventData : EventData :=
  { start_datetime := "2020-01-01 18:00", end_datetime := "2020-01-01 20:00",
    venue := "Hall", province := "MA", city := "Cambridge",
    address := "1 Oxford St", postal_code := "02138",
    ical_source_url := "https://cal.test/1.ics" }

def c1Item1 : Item :=
  { baseItem with
    post_type := "ai1ec_event", post_id := some "1",
    post_name := some "event-one", title := some "Event One",
    pubDate := some "Wed, 01 Jan 2020 12:00:00 +0000", creator := some "admin" }

def c1Item2 : Item :=
  { c1Item1 with
    post_id := some "2", post_name := some "event-two",
    title := some "Event Two" }

/-- Fetch environment for C1: the request for record 2 fails at transport
level (network failure or the 10 s timeout abort); every other id
succeeds. -/
def c1Fetch : String → FetchResult := fun id =>
  if id == "2" then .transportError else .ok { event_data := some c1EventData }

def c2Good1 : Item :=
  { baseItem with
    post_id := some "1", post_name := some "one",
    title := some "One", pubDate := some "Wed, 01 Jan 2020 12:00:00 +0000",
    creator := some "admin" }

def c2Bad : Item :=
  { c2Good1 with
    post_id := none, post_name := some "two", title := some "Two" }

def c2Good3 : Item :=
  { c2Good1 with
    post_id := some "3", post_name := some "three",
    title := some "Three" }

def c2Fetch : String → FetchResult := fun _ => .httpError

def c4Attachment1 : Item :=
  { baseItem with
    post_type := "attachment", status := "inherit",
    post_id := some "5", post_parent := some "10",
    attachment_url := some "http://ex.com/a.png" }

def c4Attachment2 : Item :=
  { c4Attachment1 with
    post_id := some "6",
    attachment_url := some "http://ex.com/b.gif" }

def c4Images : List Image :=
  [{ id := .declared "5", postId := "10", url := "http://ex.com/a.png" },
   { id := .declared "6", postId := "10", url := "http://ex.com/b.gif" }]

def c4PostMeta : Meta :=
  { id := "10", slug := "post-ten", coverImageId := some "6", type := "post",
    imageUrls := [] }

def c4PostFrontmatter : Frontmatter :=
  { title := "Ten", date := some "2020-01-01", categories := [], tags := [],
    wp_id := "10", wp_type := "post", wp_slug := "post-ten", creator := "admin",
    start_datetime := none, end_datetime := none, venue := none, address := none,
    ical_source_url := none, coverImage := none }

def c4Post : Post :=
  { meta := c4PostMeta, frontmatter := c4PostFrontmatter, content := "" }

/-- For the C5 witness: one declared cover asset and one body-scraped asset
with the same URL, both matching the record. -/
def c5Images : List Image :=
  [{ id := .declared "6", postId := "10", url := "http://ex.com/b.gif" },
   { id := .sentinel, postId := "10", url := "http://ex.com/b.gif" }]

def c7EventData : EventData :=
  { start_datetime := "2020-02-01 18:00", end_datetime := "2020-02-01 20:00",
    venue := "Hall", province := "MA", city := "", address := "123 Main St",
    postal_code := "02138", ical_source_url := "https://cal.test/7.ics" }

def c7Item : Item :=
  { baseItem with
    post_type := "ai1ec_event", post_id := some "7",
    post_name := some "event-seven", title := some "Event Seven",
    pubDate := some "Sat, 01 Feb 2020 12:00:00 +0000", creator := some "admin" }

def c7Fetch : String → FetchResult := fun _ => .ok { event_data := some c7EventData }

def c8Item : Item :=
  { baseItem with
    post_id := some "1", post_name := some "one",
    encoded := "<img src=\"../img/x.jpg\">", link := "https://site.test/post/1/" }

/-- The single Asset the C8 example produces. -/
def c8Image : Image :=
  { id := ImageId.sentinel, postId := "1", url := "https://site.test/post/img/x.jpg" }

/-- The record of the C4 example after correlation. -/
def c4Merged : Post :=
  { c4Post with
    meta := { c4PostMeta with imageUrls := ["http://ex.com/a.png", "http://ex.com/b.gif"] },
    frontmatter := { c4PostFrontmatter with coverImage := some "b.gif" } }


/-! ## Helper lemmas -/

theorem ok_bind (a : α) (f : α → Except RunError β) :
    (Except.ok a : Except RunError α) >>= f = f a := rfl

theorem error_bind (e : RunError) (f : α → Except RunError β) :
    (Except.error e : Except RunError α) >>= f = Except.error e := rfl

theorem exceptMapList_cons (f : α → Except RunError β) (a : α) (l : List α) :
    exceptMapList f (a :: l)
      = (f a) >>= fun b => (exceptMapList f l) >>= fun bs => Except.ok (b :: bs) := rfl

/-- A task list containing a failing task makes the whole Promise.all
fail. -/
theorem exceptMapList_not_ok_of_mem (f : α → Except RunError β) (l : List α)
    (a : α) (ha : a ∈ l) (e : RunError) (hf : f a = .error e) :
    (exceptMapList f l).isOk = false := by
  induction l with
  | nil => cases ha
  | cons hd tl ih =>
    rw [exceptMapList_cons]
    rcases List.mem_cons.mp ha with h | h
    · subst h
      rw [hf, error_bind]
      rfl
    · cases hhd : f hd with
      | error e' => rw [error_bind]; rfl
      | ok b =>
        rw [ok_bind]
        have htl := ih h
        cases htl2 : exceptMapList f tl with
        | error e' => rw [error_bind]; rfl
        | ok bs =>
          rw [htl2] at htl
          have hok : (Except.ok bs : Except RunError (List β)).isOk = true := rfl
          rw [hok] at htl
          exact Bool.noConfusion htl

/-- Every element of a successful Promise.all result comes from some task
of the list succeeding with it. -/
theorem exceptMapList_ok_mem (f : α → Except RunError β) (l : List α)
    (bs : List β) (h : exceptMapList f l = .ok bs) (b : β) (hb : b ∈ bs) :
    ∃ a ∈ l, f a = .ok b := by
  induction l generalizing bs with
  | nil =>
    simp only [exceptMapList] at h
    cases h
    cases hb
  | cons hd tl ih =>
    rw [exceptMapList_cons] at h
    cases hhd : f hd with
    | error e => rw [hhd, error_bind] at h; cases h
    | ok b0 =>
      rw [hhd, ok_bind] at h
      cases htl : exceptMapList f tl with
      | error e => rw [htl, error_bind] at h; cases h
      | ok bs' =>
        rw [htl, ok_bind] at h
        cases h
        rcases List.mem_cons.mp hb with h | h
        · exact ⟨hd, List.mem_cons_self hd tl, h ▸ hhd⟩
        · rcases ih bs' htl h with ⟨a, hal, hfa⟩
          exact ⟨a, List.mem_cons_of_mem hd hal, hfa⟩

theorem jsSetAdd_mem (acc : List String) (t a : String) :
    a ∈ jsSetAdd acc t ↔ a ∈ acc ∨ a = t := by
  unfold jsSetAdd
  by_cases h : acc.contains t
  · rw [if_pos h]
    have ht : t ∈ acc := by simpa using h
    constructor
    · exact Or.inl
    · rintro (h' | rfl)
      · exact h'
      · exact ht
  · rw [if_neg h]
    simp

theorem foldl_jsSetAdd_mem (l : List String) (acc : List String) (a : String) :
    a ∈ l.foldl jsSetAdd acc ↔ a ∈ acc ∨ a ∈ l := by
  induction l generalizing acc with
  | nil => simp
  | cons hd tl ih =>
    simp only [List.foldl_cons, ih, jsSetAdd_mem, List.mem_cons]
    tauto

theorem jsSetAdd_nodup (acc : List String) (t : String) (h : acc.Nodup) :
    (jsSetAdd acc t).Nodup := by
  unfold jsSetAdd
  by_cases hc : acc.contains t
  · rwa [if_pos hc]
  · rw [if_neg hc]
    have ht : t ∉ acc := by simpa using hc
    simp [List.nodup_append, h, ht]

theorem foldl_jsSetAdd_nodup (l : List String) (acc : List String) (h : acc.Nodup) :
    (l.foldl jsSetAdd acc).Nodup := by
  induction l generalizing acc with
  | nil => exact h
  | cons hd tl ih => exact ih _ (jsSetAdd_nodup _ _ h)

/-- The fold appends a subsequence of the folded list after the
accumulator: what gets added appears in first-seen order. -/
theorem foldl_jsSetAdd_sublist (l : List String) (acc : List String) :
    ∃ d, l.foldl jsSetAdd acc = acc ++ d ∧ d.Sublist l := by
  induction l generalizing acc with
  | nil => exact ⟨[], by simp⟩
  | cons hd tl ih =>
    simp only [List.foldl_cons]
    by_cases hc : acc.contains hd
    · rcases ih acc with ⟨d, hd1, hd2⟩
      refine ⟨d, ?_, hd2.cons hd⟩
      rw [← hd1]
      unfold jsSetAdd
      rw [if_pos hc]
    · rcases ih (acc ++ [hd]) with ⟨d, hd1, hd2⟩
      refine ⟨hd :: d, ?_, hd2.cons₂ hd⟩
      have : jsSetAdd acc hd = acc ++ [hd] := by unfold jsSetAdd; rw [if_neg hc]
      rw [this, hd1, List.append_assoc]
      rfl

/-- The per-post view of the correlator's double loop: fold one post
through every image in order. -/
def mergeImagesIntoPost (images : List Image) (post : Post) : Post :=
  images.foldl (fun p image => mergeImageIntoPost image p) post

theorem mergeImageIntoPost_meta (img : Image) (p : Post) :
    (mergeImageIntoPost img p).meta.id = p.meta.id
      ∧ (mergeImageIntoPost img p).meta.coverImageId = p.meta.coverImageId := by
  unfold mergeImageIntoPost
  dsimp only
  split <;> split <;> exact ⟨rfl, rfl⟩

theorem ruleA_mergeImageIntoPost (img' img : Image) (p : Post) :
    ruleA img' (mergeImageIntoPost img p) = ruleA img' p := by
  unfold ruleA
  rw [(mergeImageIntoPost_meta img p).1]

theorem ruleB_mergeImageIntoPost (img' img : Image) (p : Post) :
    ruleB img' (mergeImageIntoPost img p) = ruleB img' p := by
  unfold ruleB
  rw [(mergeImageIntoPost_meta img p).2]

theorem mergeImageIntoPost_imageUrls (img : Image) (p : Post) :
    (mergeImageIntoPost img p).meta.imageUrls
      = if ruleA img p || ruleB img p then jsSetAdd p.meta.imageUrls img.url
        else p.meta.imageUrls := by
  unfold mergeImageIntoPost jsSetAdd
  dsimp only
  by_cases hB : ruleB img p <;> by_cases hA : ruleA img p <;>
    by_cases hmem : img.url ∈ p.meta.imageUrls <;>
      simp [hB, hA, hmem]

theorem mergeImageIntoPost_coverImage (img : Image) (p : Post) :
    (mergeImageIntoPost img p).frontmatter.coverImage
      = if ruleB img p then some (getFilenameFromUrl img.url)
        else p.frontmatter.coverImage := by
  unfold mergeImageIntoPost
  dsimp only
  by_cases hB : ruleB img p <;> by_cases hA : ruleA img p <;>
    by_cases hmem : img.url ∈ p.meta.imageUrls <;>
      simp [hB, hA, hmem]

/-- The double loop of mergeImagesIntoPosts is the map of the per-post
fold: each post's cell is mutated independently of the others. -/
theorem mergeImagesIntoPosts_eq_map (images : List Image) (posts : List Post) :
    mergeImagesIntoPosts images posts = posts.map (mergeImagesIntoPost images) := by
  induction images generalizing posts with
  | nil =>
    show posts = posts.map (mergeImagesIntoPost [])
    induction posts with
    | nil => rfl
    | cons q qs ihq =>
      simp only [List.map_cons]
      rw [← ihq]
      rfl
  | cons img rest ih =>
    have step : mergeImagesIntoPosts (img :: rest) posts
        = mergeImagesIntoPosts rest (posts.map (mergeImageIntoPost img)) := rfl
    rw [step, ih, List.map_map]
    rfl

theorem mergeImagesIntoPost_meta (images : List Image) (p : Post) :
    (mergeImagesIntoPost images p).meta.id = p.meta.id
      ∧ (mergeImagesIntoPost images p).meta.coverImageId = p.meta.coverImageId := by
  induction images generalizing p with
  | nil => exact ⟨rfl, rfl⟩
  | cons img rest ih =>
    have step : mergeImagesIntoPost (img :: rest) p
        = mergeImagesIntoPost rest (mergeImageIntoPost img p) := rfl
    rw [step]
    rcases ih (mergeImageIntoPost img p) with ⟨h1, h2⟩
    rcases mergeImageIntoPost_meta img p with ⟨g1, g2⟩
    exact ⟨h1.trans g1, h2.trans g2⟩

/-- The final imageUrls of a post is the insert-if-absent fold of the urls
of the images either rule matched, in image order, over the initial
list. -/
theorem mergeImagesIntoPost_imageUrls (images : List Image) (p : Post) :
    (mergeImagesIntoPost images p).meta.imageUrls
      = ((images.filter (fun img => ruleA img p || ruleB img p)).map Image.url).foldl
          jsSetAdd p.meta.imageUrls := by
  induction images generalizing p with
  | nil => rfl
  | cons img rest ih =>
    have step : mergeImagesIntoPost (img :: rest) p
        = mergeImagesIntoPost rest (mergeImageIntoPost img p) := rfl
    rw [step, ih (mergeImageIntoPost img p)]
    have hfilter : rest.filter (fun img' => ruleA img' (mergeImageIntoPost img p)
          || ruleB img' (mergeImageIntoPost img p))
        = rest.filter (fun img' => ruleA img' p || ruleB img' p) :=
      List.filter_congr (fun img' _ => by
        rw [ruleA_mergeImageIntoPost, ruleB_mergeImageIntoPost])
    rw [hfilter, mergeImageIntoPost_imageUrls img p, List.filter_cons]
    by_cases h : ruleA img p || ruleB img p
    · rw [if_pos h, if_pos h, List.map_cons, List.foldl_cons]
    · rw [if_neg h, if_neg h]

/-- The final coverImage of a post is the filename of the last image Rule B
matched, if any. -/
theorem mergeImagesIntoPost_coverImage (images : List Image) (p : Post) :
    (mergeImagesIntoPost images p).frontmatter.coverImage
      = match (images.filter (fun img => ruleB img p)).getLast? with
        | some img => some (getFilenameFromUrl img.url)
        | none => p.frontmatter.coverImage := by
  induction images generalizing p with
  | nil => rfl
  | cons img rest ih =>
    have step : mergeImagesIntoPost (img :: rest) p
        = mergeImagesIntoPost rest (mergeImageIntoPost img p) := rfl
    rw [step, ih (mergeImageIntoPost img p)]
    have hfilter : rest.filter (fun img' => ruleB img' (mergeImageIntoPost img p))
        = rest.filter (fun img' => ruleB img' p) :=
      List.filter_congr (fun img' _ => by rw [ruleB_mergeImageIntoPost])
    rw [hfilter, mergeImageIntoPost_coverImage img p, List.filter_cons]
    by_cases h : ruleB img p
    · rw [if_pos h, if_pos h]
      cases hrest : rest.filter (fun img' => ruleB img' p) with
      | nil => simp
      | cons x xs =>
        rw [List.getLast?_cons_cons]
        cases hlast : (x :: xs).getLast? with
        | none => simp at hlast
        | some y => rfl
    · rw [if_neg h]
      have h' : ruleB img p = false := by simpa using h
      rw [h']
      simp only [Bool.false_eq_true, if_false]

theorem except_not_ok_iff (x : Except RunError α) :
    x.isOk = false ↔ ∃ e, x = .error e := by
  cases x <;> simp [Except.isOk, Except.toBool]

/-- A record whose post_id field is absent makes its own task throw a
TypeError at the first access, before anything else happens. -/
theorem buildPost_error_of_no_id (st : Settings) (fetchEnv : String → FetchResult)
    (transform : Item → String) (postType : String) (post : Item)
    (hid : post.post_id = none) :
    buildPost st fetchEnv transform postType post = .error .typeError := by
  unfold buildPost getPostId jsIndex0
  rw [hid]
  rfl

/-- One selected record with an absent post_id makes the whole collectPosts
call reject: the task's throw rejects its promise, the per-type Promise.all
rejects, and the outer loop rethrows. -/
theorem collectPosts_not_ok_of_missing_id
    (items : List Item) (postTypes : List String) (st : Settings)
    (fetchEnv : String → FetchResult) (transform : Item → String)
    (pt : String) (post : Item) (hpt : pt ∈ postTypes)
    (hpost : post ∈ getItemsOfType items pt)
    (hstatus : (post.status != "trash" && post.status != "draft") = true)
    (hid : post.post_id = none) :
    (collectPosts items postTypes st fetchEnv transform).isOk = false := by
  have hbuild := buildPost_error_of_no_id st fetchEnv transform pt post hid
  have hmem : post ∈ (getItemsOfType items pt).filter
      (fun p => p.status != "trash" && p.status != "draft") :=
    List.mem_filter.mpr ⟨hpost, hstatus⟩
  have hinner := exceptMapList_not_ok_of_mem
    (buildPost st fetchEnv transform pt) _ post hmem RunError.typeError hbuild
  rcases (except_not_ok_iff _).mp hinner with ⟨e, he⟩
  have htask : (fun postType =>
      let postsForType := (getItemsOfType items postType).filter
        (fun p => p.status != "trash" && p.status != "draft")
      exceptMapList (buildPost st fetchEnv transform postType) postsForType) pt
      = .error e := he
  have houter := exceptMapList_not_ok_of_mem
    (fun postType =>
      let postsForType := (getItemsOfType items postType).filter
        (fun p => p.status != "trash" && p.status != "draft")
      exceptMapList (buildPost st fetchEnv transform postType) postsForType)
    postTypes pt hpt e htask
  rcases (except_not_ok_iff _).mp houter with ⟨e', he'⟩
  have hunfold : collectPosts items postTypes st fetchEnv transform
      = (exceptMapList
          (fun postType =>
            let postsForType := (getItemsOfType items postType).filter
              (fun p => p.status != "trash" && p.status != "draft")
            exceptMapList (buildPost st fetchEnv transform postType) postsForType)
          postTypes) >>= fun perType => Except.ok perType.flatten := rfl
  rw [hunfold, he', error_bind]
  rfl

/-- The two string-level facts behind the two getAddress variants: string
append is associative, and the historical filter keeps exactly the
components whose trim is nonempty. -/
theorem jsJoin_two (sep a b : String) : jsJoin sep [a, b] = a ++ sep ++ b := rfl

theorem historical_filter_eq (c : String) :
    (c != "" && jsTrim c != "") = (jsTrim c != "") := by
  by_cases hc : c = ""
  · subst hc
    decide
  · rw [bne_iff_ne.mpr hc, Bool.true_and]


/-- What stripCI consumes agrees with the pattern up to case. -/
theorem stripCI_toLower (pat : List Char) :
    ∀ s con r, stripCI pat s = some (con, r) →
      con.map Char.toLower = pat.map Char.toLower := by
  induction pat with
  | nil =>
    intro s con r h
    unfold stripCI at h
    simp only [Option.some.injEq, Prod.mk.injEq] at h
    rw [← h.1]
  | cons p ps ih =>
    intro s con r h
    cases s with
    | nil => exact absurd h (by unfold stripCI; simp)
    | cons c cs =>
      unfold stripCI at h
      by_cases hc : charCIEq c p
      · rw [if_pos hc] at h
        cases hs : stripCI ps cs with
        | none => rw [hs] at h; cases h
        | some pr =>
          rw [hs] at h
          rcases pr with ⟨con', r'⟩
          simp only [Option.some.injEq, Prod.mk.injEq] at h
          rw [← h.1]
          simp only [List.map_cons]
          rw [ih cs con' r' hs, beq_iff_eq.mp hc]
      · rw [if_neg hc] at h
        cases h

/-- A successful extension-quote-tail step consumed one of the offered
extension alternatives, up to case. -/
theorem tryExtQuoteTail_ext (es : List (List Char)) :
    ∀ u con rest, tryExtQuoteTail es u = some (con, rest) →
      ∃ e ∈ es, con.map Char.toLower = e.map Char.toLower := by
  induction es with
  | nil =>
    intro u con rest h
    exact absurd h (by unfold tryExtQuoteTail; simp)
  | cons e es' ih =>
    intro u con rest h
    unfold tryExtQuoteTail at h
    cases hs : stripCI e u with
    | none =>
      rw [hs] at h
      rcases ih u con rest h with ⟨e', he', hlow⟩
      exact ⟨e', List.mem_cons_of_mem e he', hlow⟩
    | some pr =>
      rw [hs] at h
      rcases pr with ⟨con', u'⟩
      cases u' with
      | nil =>
        dsimp only at h
        rcases ih u con rest h with ⟨e', he', hlow⟩
        exact ⟨e', List.mem_cons_of_mem e he', hlow⟩
      | cons q v =>
        dsimp only at h
        by_cases hq : q == '"'
        · rw [if_pos hq] at h
          cases ht : tryTail v with
          | none =>
            rw [ht] at h
            rcases ih u con rest h with ⟨e', he', hlow⟩
            exact ⟨e', List.mem_cons_of_mem e he', hlow⟩
          | some rest' =>
            rw [ht] at h
            simp only [Option.some.injEq, Prod.mk.injEq] at h
            exact ⟨e, List.mem_cons_self e es',
              by rw [← h.1]; exact stripCI_toLower e u con' (q :: v) hs⟩
        · rw [if_neg (by simpa using hq)] at h
          rcases ih u con rest h with ⟨e', he', hlow⟩
          exact ⟨e', List.mem_cons_of_mem e he', hlow⟩


/-- The capture terminator yields a dot followed by one of the extension
alternatives, up to case. -/
theorem tryDotExt_ext (t capTail rest : List Char)
    (h : tryDotExt t = some (capTail, rest)) :
    ∃ cs, capTail = '.' :: cs ∧ ∃ e ∈ imgExts, cs.map Char.toLower = e.map Char.toLower := by
  cases t with
  | nil => exact absurd h (by unfold tryDotExt; simp)
  | cons c t' =>
    unfold tryDotExt at h
    dsimp only at h
    by_cases hc : c == '.'
    · rw [if_pos hc] at h
      cases he : tryExtQuoteTail imgExts t' with
      | none => rw [he] at h; cases h
      | some pr =>
        rw [he] at h
        simp only [Option.map_some', Option.some.injEq, Prod.mk.injEq] at h
        rcases tryExtQuoteTail_ext imgExts t' pr.1 pr.2 (by rw [he]) with ⟨e, hin, hlow⟩
        refine ⟨pr.1, ?_, e, hin, hlow⟩
        rw [← h.1, beq_iff_eq.mp hc]
    · rw [if_neg (by simpa using hc)] at h
      cases h

/-- Every successful capture of the lazy loop ends in a dot and an
extension alternative, up to case. -/
theorem captureLoop_ext (fuel : Nat) :
    ∀ bodyRev t cap rest, captureLoop fuel bodyRev t = some (cap, rest) →
      ∃ pre cs, cap = pre ++ '.' :: cs
        ∧ ∃ e ∈ imgExts, cs.map Char.toLower = e.map Char.toLower := by
  induction fuel with
  | zero => intro bodyRev t cap rest h; exact absurd h (by unfold captureLoop; simp)
  | succ f ih =>
    intro bodyRev t cap rest h
    cases t with
    | nil => exact absurd h (by unfold captureLoop; simp)
    | cons c t' =>
      unfold captureLoop at h
      dsimp only at h
      by_cases hl : isLineTerm c
      · rw [if_pos hl] at h; cases h
      · rw [if_neg (by simpa using hl)] at h
        cases hd : tryDotExt t' with
        | none => rw [hd] at h; exact ih (c :: bodyRev) t' cap rest h
        | some pr =>
          rw [hd] at h
          simp only [Option.some.injEq, Prod.mk.injEq] at h
          rcases tryDotExt_ext t' pr.1 pr.2 (by rw [hd]) with ⟨cs, hcap, e, hin, hlow⟩
          exact ⟨(c :: bodyRev).reverse, cs, by rw [← h.1, hcap], e, hin, hlow⟩

/-- The src-onward matcher inherits the capture shape. -/
theorem trySrcAt_ext (suffix cap rest : List Char)
    (h : trySrcAt suffix = some (cap, rest)) :
    ∃ pre cs, cap = pre ++ '.' :: cs
      ∧ ∃ e ∈ imgExts, cs.map Char.toLower = e.map Char.toLower := by
  unfold trySrcAt at h
  cases hs : stripCI ['s', 'r', 'c', '=', '"'] suffix with
  | none => rw [hs] at h; cases h
  | some pr =>
    rw [hs] at h
    exact captureLoop_ext pr.2.length [] pr.2 cap rest h

/-- The backtracking over the leading non-gt run inherits the capture
shape. -/
theorem srcBacktrack_ext (rest : List Char) (k : Nat) :
    ∀ cap r, srcBacktrack rest k = some (cap, r) →
      ∃ pre cs, cap = pre ++ '.' :: cs
        ∧ ∃ e ∈ imgExts, cs.map Char.toLower = e.map Char.toLower := by
  induction k with
  | zero => intro cap r h; exact trySrcAt_ext rest cap r h
  | succ k' ih =>
    intro cap r h
    unfold srcBacktrack at h
    cases ht : trySrcAt (rest.drop (k' + 1)) with
    | none => rw [ht] at h; exact ih cap r h
    | some pr =>
      rw [ht] at h
      simp only [Option.some.injEq] at h
      rcases trySrcAt_ext (rest.drop (k' + 1)) pr.1 pr.2 (by rw [ht]) with hres
      rw [h] at hres
      exact hres

/-- A whole-pattern match anchored anywhere yields a capture ending in a
dot and an extension alternative, up to case. -/
theorem matchImgAt_ext (s cap rest : List Char) (h : matchImgAt s = some (cap, rest)) :
    ∃ pre cs, cap = pre ++ '.' :: cs
      ∧ ∃ e ∈ imgExts, cs.map Char.toLower = e.map Char.toLower := by
  unfold matchImgAt at h
  cases hs : stripCI ['<', 'i', 'm', 'g'] s with
  | none => rw [hs] at h; cases h
  | some pr =>
    rw [hs] at h
    exact srcBacktrack_ext pr.2 _ cap rest h

/-- Every capture the matchAll scan produces has the extension shape. -/
theorem matchAllLoop_ext (fuel : Nat) :
    ∀ s cap, cap ∈ matchAllLoop fuel s →
      ∃ pre cs, cap = pre ++ '.' :: cs
        ∧ ∃ e ∈ imgExts, cs.map Char.toLower = e.map Char.toLower := by
  induction fuel with
  | zero => intro s cap h; exact absurd h (by unfold matchAllLoop; simp)
  | succ f ih =>
    intro s cap h
    cases s with
    | nil => exact absurd h (by unfold matchAllLoop; simp)
    | cons c s' =>
      unfold matchAllLoop at h
      cases hm : matchImgAt (c :: s') with
      | none => rw [hm] at h; exact ih s' cap h
      | some pr =>
        rw [hm] at h
        rcases List.mem_cons.mp h with h | h
        · subst h
          exact matchImgAt_ext (c :: s') pr.1 pr.2 (by rw [hm])
        · exact ih pr.2 cap h

/-- Every capture of the scrape pattern over a string ends, case
insensitively, in a dot and one of gif, jpeg, jpg, png. -/
theorem matchAllImg_ext (s : String) (cap : String) (h : cap ∈ matchAllImg s) :
    ∃ pre cs, cap.data = pre ++ '.' :: cs
      ∧ ∃ e ∈ imgExts, cs.map Char.toLower = e.map Char.toLower := by
  unfold matchAllImg at h
  rcases List.mem_map.mp h with ⟨capl, hin, heq⟩
  rcases matchAllLoop_ext s.data.length s.data capl hin with ⟨pre, cs, hcap, e, he, hlow⟩
  exact ⟨pre, cs, by rw [← heq, hcap], e, he, hlow⟩

theorem getPostId_ok (post : Item) (id : String) :
    getPostId post = .ok id ↔ post.post_id = some id := by
  unfold getPostId jsIndex0
  cases post.post_id <;> simp

/-- Dissection of a successful scrape: every emitted Asset has the sentinel
id and comes from one capture of one scanned post, with the capture
resolved against that post's link. -/
theorem collectScrapedImages_shape (items : List Item) (pts : List String)
    (imgs : List Image) (h : collectScrapedImages items pts = .ok imgs)
    (img : Image) (himg : img ∈ imgs) :
    img.id = ImageId.sentinel
      ∧ ∃ pt ∈ pts, ∃ post ∈ getItemsOfType items pt,
          post.post_id = some img.postId
            ∧ ∃ cap ∈ matchAllImg post.encoded, img.url = urlResolve cap post.link := by
  have hunfold : collectScrapedImages items pts
      = (exceptMapList (scrapeType items) pts) >>= fun ls => Except.ok ls.flatten := rfl
  rw [hunfold] at h
  cases hts : exceptMapList (scrapeType items) pts with
  | error e => rw [hts, error_bind] at h; cases h
  | ok ls =>
    rw [hts, ok_bind] at h
    cases h
    rcases List.mem_flatten.mp himg with ⟨l, hl, himgl⟩
    rcases exceptMapList_ok_mem _ pts ls hts l hl with ⟨pt, hpt, hscrape⟩
    have hunfold2 : scrapeType items pt
        = (exceptMapList scrapePost (getItemsOfType items pt)) >>= fun ps => Except.ok ps.flatten := rfl
    rw [hunfold2] at hscrape
    cases hps : exceptMapList scrapePost (getItemsOfType items pt) with
    | error e => rw [hps, error_bind] at hscrape; cases hscrape
    | ok ps =>
      rw [hps, ok_bind] at hscrape
      cases hscrape
      rcases List.mem_flatten.mp himgl with ⟨l', hl', himgl'⟩
      rcases exceptMapList_ok_mem _ _ ps hps l' hl' with ⟨post, hpost, hsp⟩
      have hunfold3 : scrapePost post
          = (getPostId post) >>= fun postId =>
              Except.ok ((matchAllImg post.encoded).map (fun cap =>
                { id := ImageId.sentinel, postId := postId, url := urlResolve cap post.link })) := rfl
      rw [hunfold3] at hsp
      cases hid : getPostId post with
      | error e => rw [hid, error_bind] at hsp; cases hsp
      | ok postId =>
        rw [hid, ok_bind] at hsp
        cases hsp
        rcases List.mem_map.mp himgl' with ⟨cap, hcap, heq⟩
        subst heq
        exact ⟨rfl, pt, hpt, post, hpost, (getPostId_ok post postId).mp hid, cap, hcap, rfl⟩

theorem formatPostDate_default (st : Settings) (pubDate : String)
    (h1 : st.custom_date_formatting = none) (h2 : st.include_time_with_date = false) :
    formatPostDate st pubDate = (parseRFC2822 pubDate).map luxonToISODate := by
  unfold formatPostDate jsTruthyStrOpt
  rw [h1, h2]
  simp

theorem getPostDate_some (st : Settings) (post : Item) (d : String)
    (h : post.pubDate = some d) :
    getPostDate st post = .ok (formatPostDate st d) := by
  unfold getPostDate jsIndex0
  rw [h]
  rfl

/-! ## Claim theorems -/

/-- C1: the claim states that when a record's enrichment request fails at
the network level or its 10-time-unit timeout elapses, the record is still
retained in the final output with its pre-enrichment frontmatter and the
failure is not surfaced as a run failure.  The code does the opposite: the
.catch in getEventMetadata rejects the promise, the await in collectPosts
is not wrapped in try/catch, so the per-type Promise.all rejects and the
whole run fails, returning no records at all.  Here record 2's fetch fails
at transport level: the whole collectPosts call rejects with that failure,
although the same records succeed when the failing record is absent. -/
theorem c1_transport_failure_rejects_run :
    collectPosts [c1Item1, c1Item2] ["ai1ec_event"] defaultSettings c1Fetch exampleTransform
      = .error RunError.fetchRejection
    ∧ (collectPosts [c1Item1] ["ai1ec_event"] defaultSettings c1Fetch exampleTransform).isOk
        = true
    ∧ getEventMetadata c1Fetch "2" = .error RunError.fetchRejection :=
  ⟨by decide, by decide, by decide⟩

/-- C2 counterexample: an export with three selected post items whose middle
item lacks the required id field.  The claim says the run skips that record,
continues with the remaining records, and surfaces a count of skipped
records; the code instead aborts the whole run with the TypeError thrown by
the field access, returning no records. -/
theorem c2_counterexample_missing_id_aborts_run :
    collectPosts [c2Good1, c2Bad, c2Good3] ["post"] defaultSettings c2Fetch exampleTransform
      = .error RunError.typeError := by decide

/-- C2 (amended): for every export item selected for extraction whose
required id field is absent, the per-record field access throws a
TypeError; the rejection propagates through the per-type Promise.all and
aborts the whole collectPosts run — no record is skipped and no
skipped-record count exists. -/
theorem c2_missing_id_aborts
    (items : List Item) (postTypes : List String) (st : Settings)
    (fetchEnv : String → FetchResult) (transform : Item → String)
    (pt : String) (post : Item) (hpt : pt ∈ postTypes)
    (hpost : post ∈ getItemsOfType items pt)
    (hstatus : (post.status != "trash" && post.status != "draft") = true)
    (hid : post.post_id = none) :
    (collectPosts items postTypes st fetchEnv transform).isOk = false :=
  collectPosts_not_ok_of_missing_id items postTypes st fetchEnv transform
    pt post hpt hpost hstatus hid

theorem c2_missing_id_aborts_witness :
    (collectPosts [c2Good1, c2Bad, c2Good3] ["post"] defaultSettings c2Fetch
      exampleTransform).isOk = false :=
  c2_missing_id_aborts [c2Good1, c2Bad, c2Good3] ["post"] defaultSettings c2Fetch
    exampleTransform "post" c2Bad (by decide) (by decide) (by decide) (by decide)

/-- C3 counterexample: the claimed schedule staggers enrichment requests
5000 ms apart for the enrichable subtype and gives other subtypes no
delay.  The code's schedule does neither: the third enrichable request
starts at 5000, not 10000, and the second record of a plain post type is
delayed 5000, not 0. -/
theorem c3_counterexample_schedule :
    requestStartMs "ai1ec_event" 2 ≠ claimedRequestStartMs "ai1ec_event" 2
    ∧ requestStartMs "post" 1 ≠ claimedRequestStartMs "post" 1 := by decide

/-- C3 (amended): every task after the first of its type — of every
subtype, not only the enrichable one — waits one fixed 5000 ms delay, and
because the map starts all tasks together, every non-first task starts at
5000 ms, whatever its index; the schedule does not depend on the post type
at all. -/
theorem c3_single_uniform_delay :
    (∀ t1 t2 i, requestStartMs t1 i = requestStartMs t2 i)
    ∧ (∀ t, requestStartMs t 0 = 0)
    ∧ (∀ t i, i ≠ 0 → requestStartMs t i = 5000) := by
  refine ⟨fun t1 t2 i => rfl, fun t => rfl, fun t i hi => ?_⟩
  unfold requestStartMs
  rw [if_neg (by simpa using hi)]

theorem c3_single_uniform_delay_witness :
    requestStartMs "ai1ec_event" 2 = 5000 :=
  c3_single_uniform_delay.2.2 "ai1ec_event" 2 (by decide)

/-- C4: for every (Asset, Record) pair the correlator attaches the asset's
URL iff Rule A (postId matches the record id) or Rule B (asset id matches
the record's cover image id) fires, Rule B additionally setting
frontmatter.coverImage to the filename segment of the asset URL; on the
spec's concrete example (attachments a.png id 5 and b.gif id 6, both with
parent 10, against a record with id 10 and cover id 6) the result is
imageUrls [a.png, b.gif] and coverImage b.gif. -/
theorem c4_correlator_rules :
    (∀ images posts, mergeImagesIntoPosts images posts
      = posts.map (mergeImagesIntoPost images))
    ∧ (∀ (images : List Image) (p : Post) (u : String),
        u ∈ (mergeImagesIntoPost images p).meta.imageUrls
          ↔ u ∈ p.meta.imageUrls
            ∨ ∃ img ∈ images, (ruleA img p || ruleB img p) = true ∧ img.url = u)
    ∧ (∀ (images : List Image) (p : Post), (∃ img ∈ images, ruleB img p = true) →
        ∃ img ∈ images, ruleB img p = true
          ∧ (mergeImagesIntoPost images p).frontmatter.coverImage
              = some (getFilenameFromUrl img.url))
    ∧ collectAttachedImages [c4Attachment1, c4Attachment2] = .ok c4Images
    ∧ mergeImagesIntoPosts c4Images [c4Post] = [c4Merged] := by
  refine ⟨mergeImagesIntoPosts_eq_map, fun images p u => ?_, fun images p h => ?_,
    by decide, by decide⟩
  · rw [mergeImagesIntoPost_imageUrls, foldl_jsSetAdd_mem]
    refine or_congr Iff.rfl ?_
    constructor
    · intro hm
      rcases List.mem_map.mp hm with ⟨img, hmem, hurl⟩
      rcases List.mem_filter.mp hmem with ⟨hin, hcond⟩
      exact ⟨img, hin, hcond, hurl⟩
    · rintro ⟨img, hin, hcond, hurl⟩
      exact List.mem_map.mpr ⟨img, List.mem_filter.mpr ⟨hin, hcond⟩, hurl⟩
  · rcases h with ⟨img0, hin0, hB0⟩
    have hne : images.filter (fun img => ruleB img p) ≠ [] := by
      intro hnil
      have hm : img0 ∈ images.filter (fun img => ruleB img p) :=
        List.mem_filter.mpr ⟨hin0, hB0⟩
      rw [hnil] at hm
      cases hm
    obtain ⟨lst, hlst⟩ : ∃ lst, (images.filter (fun img => ruleB img p)).getLast? = some lst := by
      cases hg : (images.filter (fun img => ruleB img p)).getLast? with
      | none => rw [List.getLast?_eq_none_iff] at hg; exact absurd hg hne
      | some lst => exact ⟨lst, rfl⟩
    have hmemf : lst ∈ images.filter (fun img => ruleB img p) := by
      rcases List.mem_getLast?_eq_getLast (show lst ∈ (images.filter
          (fun img => ruleB img p)).getLast? by rw [hlst]; rfl) with ⟨hne', heq⟩
      rw [heq]
      exact List.getLast_mem hne'
    rcases List.mem_filter.mp hmemf with ⟨hinl, hBl⟩
    refine ⟨lst, hinl, hBl, ?_⟩
    rw [mergeImagesIntoPost_coverImage, hlst]

theorem c4_correlator_rules_witness :
    ∃ img ∈ c4Images, ruleB img c4Post = true
      ∧ (mergeImagesIntoPost c4Images c4Post).frontmatter.coverImage
          = some (getFilenameFromUrl img.url) :=
  c4_correlator_rules.2.2.1 c4Images c4Post (by decide)

/-- C5: after the correlator completes, every record's imageUrls has no
duplicate URLs — also when one asset matches both rules, or a cover image
repeats a body-scraped URL — and the final list is the insert-if-absent
fold (first-seen order) of the matched URLs over the record's initial
list. -/
theorem c5_imageUrls_nodup_first_seen :
    ∀ (images : List Image) (posts : List Post) (p' : Post),
      (∀ p ∈ posts, p.meta.imageUrls.Nodup) →
      p' ∈ mergeImagesIntoPosts images posts →
      p'.meta.imageUrls.Nodup
        ∧ ∃ p ∈ posts, p'.meta.imageUrls
            = ((images.filter (fun img => ruleA img p || ruleB img p)).map Image.url).foldl
                jsSetAdd p.meta.imageUrls := by
  intro images posts p' hnodup hmem
  rw [mergeImagesIntoPosts_eq_map] at hmem
  rcases List.mem_map.mp hmem with ⟨p, hp, rfl⟩
  refine ⟨?_, p, hp, mergeImagesIntoPost_imageUrls images p⟩
  rw [mergeImagesIntoPost_imageUrls]
  exact foldl_jsSetAdd_nodup _ _ (hnodup p hp)

theorem c5_imageUrls_nodup_first_seen_witness :
    (mergeImagesIntoPost c5Images c4Post).meta.imageUrls.Nodup
      ∧ ∃ p ∈ [c4Post], (mergeImagesIntoPost c5Images c4Post).meta.imageUrls
          = ((c5Images.filter (fun img => ruleA img p || ruleB img p)).map Image.url).foldl
              jsSetAdd p.meta.imageUrls :=
  c5_imageUrls_nodup_first_seen c5Images [c4Post] (mergeImagesIntoPost c5Images c4Post)
    (by decide) (by decide)

/-- C6: with the include-other-types flag off the classified type set is
exactly the singleton post; with it on, the set holds exactly the declared
types of the export's items minus the fixed exclusion set, with no
duplicates, in first-seen order (a sublist of the declared-type sequence
after exclusion). -/
theorem c6_classified_type_set :
    (∀ items : List Item, getPostTypes items false = ["post"])
    ∧ (∀ (items : List Item) (t : String),
        t ∈ getPostTypes items true
          ↔ ((∃ i ∈ items, i.post_type = t) ∧ t ∉ excludedTypes))
    ∧ (∀ items : List Item, (getPostTypes items true).Nodup)
    ∧ (∀ items : List Item, (getPostTypes items true).Sublist
        ((items.map Item.post_type).filter (fun t => !excludedTypes.contains t))) := by
  refine ⟨fun items => rfl, fun items t => ?_, fun items => ?_, fun items => ?_⟩
  · show t ∈ dedupFirstSeen ((items.map (·.post_type)).filter
      (fun t => !excludedTypes.contains t)) ↔ _
    unfold dedupFirstSeen
    rw [foldl_jsSetAdd_mem]
    simp only [List.not_mem_nil, false_or, List.mem_filter, List.mem_map]
    constructor
    · rintro ⟨⟨i, hi, hieq⟩, hcond⟩
      exact ⟨⟨i, hi, hieq⟩, by simpa using hcond⟩
    · rintro ⟨⟨i, hi, hieq⟩, hnot⟩
      exact ⟨⟨i, hi, hieq⟩, by simpa using hnot⟩
  · exact foldl_jsSetAdd_nodup _ [] List.nodup_nil
  · rcases foldl_jsSetAdd_sublist
      ((items.map Item.post_type).filter (fun t => !excludedTypes.contains t)) [] with
      ⟨d, hd1, hd2⟩
    show ((items.map Item.post_type).filter
      (fun t => !excludedTypes.contains t)).foldl jsSetAdd [] |>.Sublist _
    rw [hd1]
    simpa using hd2

/-- C7 counterexample: a record successfully enriched through the networked
pipeline composes its address with the join-all form, keeping the blank
city component ("123 Main St, , MA, 02138"); the strict composition the
claim asserts would omit it ("123 Main St, MA, 02138"). -/
theorem c7_counterexample_blank_component_kept :
    (collectPosts [c7Item] ["ai1ec_event"] defaultSettings c7Fetch exampleTransform).map
        (fun ps => ps.map (fun p => p.frontmatter.address))
      = .ok [some "123 Main St, , MA, 02138"]
    ∧ getAddress c7EventData = "123 Main St, , MA, 02138"
    ∧ Historical.getAddress c7EventData = "123 Main St, MA, 02138"
    ∧ getAddress c7EventData ≠ Historical.getAddress c7EventData :=
  ⟨by decide, by decide, by decide, by decide⟩

/-- C7 (amended): the networked variant used by the enrichment pipeline
joins all four address components with a comma and space unconditionally,
blanks included; the strict composition mode — join omitting components
that are blank or whitespace-only — is implemented only by the historical
variant's getAddress. -/
theorem c7_two_address_modes :
    (∀ ed : EventData, getAddress ed
      = jsJoin ", " [ed.address, ed.city, ed.province, ed.postal_code])
    ∧ (∀ ed : EventData, Historical.getAddress ed
      = jsJoin ", " ([ed.address, ed.city, ed.province, ed.postal_code].filter
          (fun c => jsTrim c != ""))) := by
  constructor
  · intro ed
    unfold getAddress
    simp [jsJoin, String.append_assoc]
  · intro ed
    show jsJoin ", " (List.filter (fun component => component != "" && jsTrim component != "")
      [ed.address, ed.city, ed.province, ed.postal_code]) = _
    rw [List.filter_congr (fun c _ => historical_filter_eq c)]

/-- C8: every Asset the scraper emits carries the sentinel id, the owning
record's id, and one capture of the image-tag pattern resolved against that
record's canonical link; every capture ends, case-insensitively, in a dot
and one of the extensions gif, jpeg, jpg, png; and the spec's example (link
https://site.test/post/1/, body img src ../img/x.jpg) resolves to
https://site.test/post/img/x.jpg. -/
theorem c8_scraped_assets :
    (∀ (items : List Item) (pts : List String) (imgs : List Image) (img : Image),
      collectScrapedImages items pts = .ok imgs → img ∈ imgs →
        img.id = ImageId.sentinel
          ∧ ∃ pt ∈ pts, ∃ post ∈ getItemsOfType items pt,
              post.post_id = some img.postId
                ∧ ∃ cap ∈ matchAllImg post.encoded, img.url = urlResolve cap post.link)
    ∧ (∀ (s cap : String), cap ∈ matchAllImg s →
        ∃ pre cs, cap.data = pre ++ '.' :: cs
          ∧ ∃ e ∈ imgExts, cs.map Char.toLower = e.map Char.toLower)
    ∧ collectScrapedImages [c8Item] ["post"] = .ok [c8Image] :=
  ⟨fun items pts imgs img h himg => collectScrapedImages_shape items pts imgs h img himg,
   fun s cap h => matchAllImg_ext s cap h,
   by decide⟩

theorem c8_scraped_assets_witness :
    c8Image.id = ImageId.sentinel :=
  (c8_scraped_assets.1 [c8Item] ["post"] [c8Image] c8Image (by decide) (by decide)).1

/-- C9: with no custom date format configured and the include-time flag
off, getPostDate renders the publish date through the date-only ISO-8601
branch of the luxon pipeline, parsing it as RFC 2822 interpreted in UTC;
the spec's example date renders as 2020-01-01, and a nonzero offset shifts
the rendered UTC day. -/
theorem c9_date_default_policy :
    (∀ (st : Settings) (pubDate : String),
      st.custom_date_formatting = none → st.include_time_with_date = false →
        formatPostDate st pubDate = (parseRFC2822 pubDate).map luxonToISODate)
    ∧ (∀ (st : Settings) (post : Item) (d : String), post.pubDate = some d →
        getPostDate st post = .ok (formatPostDate st d))
    ∧ formatPostDate defaultSettings "Wed, 01 Jan 2020 12:00:00 +0000" = some "2020-01-01"
    ∧ formatPostDate defaultSettings "Wed, 01 Jan 2020 01:00:00 +0500" = some "2019-12-31" :=
  ⟨formatPostDate_default,
   fun st post d h => getPostDate_some st post d h,
   by decide, by decide⟩

theorem c9_date_default_policy_witness :
    formatPostDate defaultSettings "Wed, 01 Jan 2020 12:00:00 +0000"
      = (parseRFC2822 "Wed, 01 Jan 2020 12:00:00 +0000").map luxonToISODate :=
  c9_date_default_policy.1 defaultSettings "Wed, 01 Jan 2020 12:00:00 +0000" rfl rfl

/-- C10: every body-scraped Asset carries the sentinel id -1; every
record's coverImageId is either undefined or the string value of a
_thumbnail_id postmeta entry; the strict-equality cover test can never
match the sentinel against either, so a scraped asset never sets
frontmatter.coverImage, and it changes a record's imageUrls only when
Rule A (the postId match) fires. -/
theorem c10_sentinel_never_cover :
    (∀ (items : List Item) (pts : List String) (imgs : List Image) (img : Image),
      collectScrapedImages items pts = .ok imgs → img ∈ imgs →
        img.id = ImageId.sentinel)
    ∧ (∀ post : Item, getPostCoverImageId post = none
        ∨ ∃ pms pm, post.postmeta = some pms ∧ pm ∈ pms
            ∧ pm.meta_key = "_thumbnail_id" ∧ getPostCoverImageId post = some pm.meta_value)
    ∧ (∀ c : Option String, coverIdMatch ImageId.sentinel c = false)
    ∧ (∀ (img : Image) (p : Post), img.id = ImageId.sentinel →
        (mergeImageIntoPost img p).frontmatter.coverImage = p.frontmatter.coverImage
          ∧ ((mergeImageIntoPost img p).meta.imageUrls ≠ p.meta.imageUrls →
              ruleA img p = true)) := by
  refine ⟨?_, ?_, ?_, ?_⟩
  · intro items pts imgs img h himg
    exact (collectScrapedImages_shape items pts imgs h img himg).1
  · intro post
    cases hpm : post.postmeta with
    | none => left; simp [getPostCoverImageId, hpm]
    | some pms =>
      cases hf : pms.find? (fun pm => pm.meta_key == "_thumbnail_id") with
      | none => left; simp [getPostCoverImageId, hpm, hf]
      | some pm =>
        right
        have hp := List.find?_some hf
        simp only [beq_iff_eq] at hp
        refine ⟨pms, pm, rfl, List.mem_of_find?_eq_some hf, hp, ?_⟩
        simp [getPostCoverImageId, hpm, hf]
  · intro c
    cases c <;> rfl
  · intro img p h
    have hB : ruleB img p = false := by
      unfold ruleB
      rw [h]
      cases p.meta.coverImageId <;> rfl
    constructor
    · rw [mergeImageIntoPost_coverImage, hB]
      simp
    · intro hne
      by_contra hA
      have hA' : ruleA img p = false := by simpa using hA
      rw [mergeImageIntoPost_imageUrls, hA', hB] at hne
      simp at hne

theorem c10_sentinel_never_cover_witness :
    c8Image.id = ImageId.sentinel
      ∧ (mergeImageIntoPost c8Image c4Post).frontmatter.coverImage
          = c4Post.frontmatter.coverImage :=
  ⟨c10_sentinel_never_cover.1 [c8Item] ["post"] [c8Image] c8Image (by decide) (by decide),
   (c10_sentinel_never_cover.2.2.2 c8Image c4Post rfl).1⟩
